import Mathlib

/-!
Verification development for a hangman game engine (two Python modules:
`game.py` with the core state machines and the computer-opponent policy,
`app.py` with the room registry).  Python strings are modelled as
`List Char`, Python sets of characters as `Finset Char`, Python dicts as
insertion-ordered association lists, `float` timestamps as `ℚ`, and the
mutating methods as pure state-transition functions.
-/

namespace Hangman

/-! ## Character layer

The source manipulates Python `str` values.  `pyIsAlpha` models Python's
per-character `str.isalpha` classification exactly on the ASCII and
Latin-1 ranges (the only code points instantiated anywhere in this file);
Python additionally classifies many higher code points as alphabetic,
which this model conservatively reports as non-alphabetic.  `pyToLower`
models `str.lower` on the same ranges, where Python's lowering is
per-character and length-preserving. -/

def pyIsAlpha (c : Char) : Bool :=
  c.isAlpha ||
  c.toNat == 0xAA || c.toNat == 0xB5 || c.toNat == 0xBA ||
  (0xC0 ≤ c.toNat && c.toNat ≤ 0xFF && c.toNat ≠ 0xD7 && c.toNat ≠ 0xF7)

def pyToLower (c : Char) : Char :=
  if c.isUpper then Char.ofNat (c.toNat + 32)
  else if 0xC0 ≤ c.toNat && c.toNat ≤ 0xDE && c.toNat ≠ 0xD7 then Char.ofNat (c.toNat + 32)
  else c

/-- Model of Python `str.lower` (per-character on the modelled ranges). -/
def pyStrLower (s : List Char) : List Char := s.map pyToLower

/-- Model of Python `str.isalpha`: nonempty and every character alphabetic. -/
def pyStrIsAlpha (s : List Char) : Bool := !s.isEmpty && s.all pyIsAlpha

/-- The 26 lowercase ASCII letters, in order (`"abcdefghijklmnopqrstuvwxyz"`). -/
def asciiLowercase : List Char :=
  [Char.ofNat 97, Char.ofNat 98, Char.ofNat 99, Char.ofNat 100, Char.ofNat 101,
   Char.ofNat 102, Char.ofNat 103, Char.ofNat 104, Char.ofNat 105, Char.ofNat 106,
   Char.ofNat 107, Char.ofNat 108, Char.ofNat 109, Char.ofNat 110, Char.ofNat 111,
   Char.ofNat 112, Char.ofNat 113, Char.ofNat 114, Char.ofNat 115, Char.ofNat 116,
   Char.ofNat 117, Char.ofNat 118, Char.ofNat 119, Char.ofNat 120, Char.ofNat 121,
   Char.ofNat 122]

/-! ## Letter frequency table (`LETTER_FREQUENCIES` in `game.py`)

The Python table maps each of the 26 lowercase letters to a `float`
literal; the model reads the same decimal literals as exact rationals.
`AIPlayer._choose_letter` reads it through `.get(ch, 0.001)`, which the
model renders as a total function with default `0.001`. -/

def LETTER_FREQUENCIES (c : Char) : ℚ :=
  if c = 'e' then 126621/1000000 else
  if c = 't' then 90728/1000000 else
  if c = 'a' then 81756/1000000 else
  if c = 'o' then 74777/1000000 else
  if c = 'i' then 69791/1000000 else
  if c = 'n' then 66803/1000000 else
  if c = 's' then 62812/1000000 else
  if c = 'h' then 60916/1000000 else
  if c = 'r' then 59821/1000000 else
  if c = 'd' then 42871/1000000 else
  if c = 'l' then 39880/1000000 else
  if c = 'c' then 27918/1000000 else
  if c = 'u' then 27918/1000000 else
  if c = 'm' then 23929/1000000 else
  if c = 'w' then 23929/1000000 else
  if c = 'f' then 21934/1000000 else
  if c = 'g' then 19940/1000000 else
  if c = 'y' then 19940/1000000 else
  if c = 'p' then 18947/1000000 else
  if c = 'b' then 14958/1000000 else
  if c = 'v' then 9970/1000000 else
  if c = 'k' then 7976/1000000 else
  if c = 'j' then 1994/1000000 else
  if c = 'x' then 1994/1000000 else
  if c = 'q' then 998/1000000 else
  if c = 'z' then 998/1000000 else
  1/1000

/-! ## Players

`Player` / `HumanPlayer` / `AIPlayer` form a subtype chain in the source;
the model uses one record with a kind tag.  `AIPlayer.__init__` clamps
`intelligence` to `[0, 100]`. -/

inductive PlayerKind
  | generic
  | human
  | ai (intelligence : ℕ)
deriving DecidableEq, Repr

structure PlayerRec where
  id : String
  name : String
  kind : PlayerKind
deriving DecidableEq, Repr

/-- Clamp of `AIPlayer.__init__`: `max(0, min(100, intelligence))`. -/
def clampIntelligence (i : ℤ) : ℕ := (max 0 (min 100 i)).toNat

def mkHumanPlayer (player_id name : String) : PlayerRec :=
  ⟨player_id, name, PlayerKind.human⟩

def mkAIPlayer (player_id name : String) (intelligence : ℤ) : PlayerRec :=
  ⟨player_id, name, PlayerKind.ai (clampIntelligence intelligence)⟩

/-! ## WordState -/

structure WordState where
  secret_word : List Char
  guessed_letters : Finset Char
deriving DecidableEq

/-- Constructor `WordState.__init__`: normalizes the secret word to
lowercase and starts with no guessed letters. -/
def mkWordState (secret_word : List Char) : WordState :=
  ⟨pyStrLower secret_word, ∅⟩

/-- Model of `WordState.apply_guess`.  The Python method lowercases the
guess, rejects it (returning `False`, no state change) unless it is one
alphabetic character not yet guessed, and otherwise records it and
returns whether it occurs in the secret word.  The source's test
`not letter.isalpha() or len(letter) != 1` is equivalent to the lowered
string not being a single alphabetic character. -/
def WordState.apply_guess (ws : WordState) (letter : List Char) : WordState × Bool :=
  match pyStrLower letter with
  | [c] =>
    if pyIsAlpha c = false then (ws, false)
    else if c ∈ ws.guessed_letters then (ws, false)
    else (⟨ws.secret_word, insert c ws.guessed_letters⟩, decide (c ∈ ws.secret_word))
  | _ => (ws, false)

/-- Model of `WordState.masked_word`. -/
def WordState.masked_word (ws : WordState) : List Char :=
  ws.secret_word.map (fun ch => if ch ∈ ws.guessed_letters then ch else '_')

/-- Model of `WordState.is_fully_revealed`. -/
def WordState.is_fully_revealed (ws : WordState) : Bool :=
  ws.secret_word.all (fun ch => decide (ch ∈ ws.guessed_letters))

/-- Serialized form of a `WordState` (`WordState.to_dict`).  Python's
`list(set)` enumerates the set in an unspecified order; the model uses
the sorted enumeration as its representative order. -/
structure WordStateDict where
  secret_word : List Char
  guessed_letters : List Char
deriving DecidableEq

def WordState.to_dict (ws : WordState) : WordStateDict :=
  ⟨ws.secret_word, ws.guessed_letters.sort (· ≤ ·)⟩

/-- Model of `WordState.from_dict`: the constructor lowercases the stored
secret word again, and the guessed-letter list is turned back into a set. -/
def WordState.from_dict (d : WordStateDict) : WordState :=
  ⟨pyStrLower d.secret_word, d.guessed_letters.toFinset⟩

/-! ## SinglePlayerGame -/

structure SinglePlayerGame where
  id : String
  player : PlayerRec
  secret_word : List Char
  max_attempts : ℕ
  guessed_letters : Finset Char
  wrong_guesses : ℕ
  finished : Bool
  won : Bool
  winner_id : Option String
deriving DecidableEq

/-- Constructor `SinglePlayerGame.__init__` (the base class draws a fresh
uuid for `id`; the model takes it as a parameter). -/
def create_solo (id : String) (player : PlayerRec) (secret_word : List Char)
    (max_attempts : ℕ) : SinglePlayerGame :=
  { id := id
    player := player
    secret_word := pyStrLower secret_word
    max_attempts := max_attempts
    guessed_letters := ∅
    wrong_guesses := 0
    finished := false
    won := false
    winner_id := none }

/-- Model of `SinglePlayerGame.guess`.  The Python method returns `None`
and mutates in place; the model returns the successor state.  The
in-place `wrong_guesses += 1` followed by `wrong_guesses >= max_attempts`
becomes the comparison against `wrong_guesses + 1`. -/
def SinglePlayerGame.guess (g : SinglePlayerGame) (letter : List Char) :
    SinglePlayerGame :=
  if g.finished then g
  else
    match pyStrLower letter with
    | [c] =>
      if pyIsAlpha c = false then g
      else if c ∈ g.guessed_letters then g
      else if c ∉ g.secret_word then
        if g.max_attempts ≤ g.wrong_guesses + 1 then
          { g with guessed_letters := insert c g.guessed_letters
                   wrong_guesses := g.wrong_guesses + 1
                   finished := true
                   won := false
                   winner_id := none }
        else
          { g with guessed_letters := insert c g.guessed_letters
                   wrong_guesses := g.wrong_guesses + 1 }
      else
        if g.secret_word.all (fun ch => decide (ch ∈ insert c g.guessed_letters)) then
          { g with guessed_letters := insert c g.guessed_letters
                   finished := true
                   won := true
                   winner_id := some g.player.id }
        else
          { g with guessed_letters := insert c g.guessed_letters }
    | _ => g

/-- Model of `SinglePlayerGame.masked_word`. -/
def SinglePlayerGame.masked_word (g : SinglePlayerGame) : List Char :=
  g.secret_word.map (fun ch => if ch ∈ g.guessed_letters then ch else '_')

/-- Model of `SinglePlayerGame.remaining_attempts` (Python `int`
subtraction, which may in principle go negative, hence `ℤ`). -/
def SinglePlayerGame.remaining_attempts (g : SinglePlayerGame) : ℤ :=
  (g.max_attempts : ℤ) - (g.wrong_guesses : ℤ)

/-- Whether every character of the solo secret word has been guessed. -/
def SinglePlayerGame.fully_revealed (g : SinglePlayerGame) : Bool :=
  g.secret_word.all (fun ch => decide (ch ∈ g.guessed_letters))

/-- Serialized form of a `SinglePlayerGame` (`to_dict`).  The nested
player dict keeps only id and name. -/
structure SoloPlayerDict where
  id : String
  name : String
deriving DecidableEq

structure SoloDict where
  id : String
  player : SoloPlayerDict
  secret_word : List Char
  max_attempts : ℕ
  guessed_letters : List Char
  wrong_guesses : ℕ
  finished : Bool
  won : Bool
  winner_id : Option String
deriving DecidableEq

def SinglePlayerGame.to_dict (g : SinglePlayerGame) : SoloDict :=
  { id := g.id
    player := ⟨g.player.id, g.player.name⟩
    secret_word := g.secret_word
    max_attempts := g.max_attempts
    guessed_letters := g.guessed_letters.sort (· ≤ ·)
    wrong_guesses := g.wrong_guesses
    finished := g.finished
    won := g.won
    winner_id := g.winner_id }

/-- Model of `SinglePlayerGame.from_dict`: rebuilds a `HumanPlayer`, runs
the constructor (which lowercases the secret word and zeroes the mutable
fields), then overwrites every mutable field from the dict.  The model
collapses constructor-then-overwrite into one record. -/
def SinglePlayerGame.from_dict (d : SoloDict) : SinglePlayerGame :=
  { id := d.id
    player := mkHumanPlayer d.player.id d.player.name
    secret_word := pyStrLower d.secret_word
    max_attempts := d.max_attempts
    guessed_letters := d.guessed_letters.toFinset
    wrong_guesses := d.wrong_guesses
    finished := d.finished
    won := d.won
    winner_id := d.winner_id }

/-! ## Opponent policy (`AIPlayer`)

`decide_move` inspects a view of the game, possibly attempts a full
solve, and otherwise picks one letter.  All randomness becomes explicit
parameters: `draw_below_probability` stands for the floating-point
comparison `random.random() < recognition_probability` inside
`_should_attempt_solve` (the only use of the recognition-probability
formula), `r` for the `random.random()` draw of the cumulative sampling
loop in `_choose_letter`, and `fallback_choice` for the index
`random.choice` would pick in the dead `total_freq <= 0` branch.  The
float weights of `_choose_letter` are modelled as exact rationals. -/

/-- Count of revealed (non-underscore) characters of a masked word
(`sum(1 for ch in masked_word if ch != "_")`). -/
def revealedCount (masked_word : List Char) : ℕ :=
  masked_word.countP (fun ch => decide (ch ≠ '_'))

/-- Model of `AIPlayer._should_attempt_solve`.  The control flow up to
the random comparison is modelled exactly: an empty word or a word with
no revealed character returns `false` before any probability is computed
or any random number drawn. -/
def shouldAttemptSolve (masked_word : List Char) (draw_below_probability : Bool) : Bool :=
  if masked_word.length = 0 then false
  else if revealedCount masked_word = 0 then false
  else draw_below_probability

/-- The cumulative-probability sampling loop of `_choose_letter`:
accumulate the probabilities and return the first letter whose cumulative
weight reaches the draw `r`; `none` models falling through the loop. -/
def sampleCDF (r : ℚ) (cum : ℚ) : List (Char × ℚ) → Option Char
  | [] => none
  | (ch, p) :: rest =>
    if r ≤ cum + p then some ch else sampleCDF r (cum + p) rest

/-- Model of `AIPlayer._choose_letter`.  `remaining` is
`sorted(set("a..z") - guessed_letters)`; the blended probability of the
i-th remaining letter is `(1-mix)*uniform + mix*normalized_freq_i`, which
the model builds directly as a map over `remaining` (the source builds
the lists `freq_values`, `normalized_freqs`, `probabilities` index-wise
with the same values).  The `masked_word` argument is accepted and unused,
as in the source. -/
def chooseLetter (intelligence : ℕ) (masked_word : List Char)
    (guessed_letters : Finset Char) (r : ℚ) (fallback_choice : ℕ) : Char :=
  let remaining := asciiLowercase.filter (fun c => decide (c ∉ guessed_letters))
  if remaining = [] then 'e'
  else
    let mix : ℚ := (intelligence : ℚ) / 100
    let n := remaining.length
    let uniform_prob : ℚ := 1 / (n : ℚ)
    let total_freq : ℚ := (remaining.map LETTER_FREQUENCIES).sum
    if total_freq ≤ 0 then remaining.getD (fallback_choice % n) 'e'
    else
      let probabilities := remaining.map
        (fun ch => (1 - mix) * uniform_prob + mix * (LETTER_FREQUENCIES ch / total_freq))
      match sampleCDF r 0 (remaining.zip probabilities) with
      | some ch => ch
      | none => remaining.getLastD 'e'

/-- The move an `AIPlayer` can decide on. -/
inductive AIMove
  | waiting
  | solve
  | letter (c : Char)
deriving DecidableEq, Repr

/-- The fields of `VersusGame.get_view_for` that `AIPlayer.decide_move`
reads (the view also carries ids and display names, which the policy
ignores). -/
structure GameView where
  masked_opponent_word : List Char
  guessed_letters : List Char
  is_current_turn : Bool
  finished : Bool
deriving DecidableEq

/-- Model of `AIPlayer.decide_move` (`{"type": "none"}` becomes
`AIMove.waiting`). -/
def decide_move (intelligence : ℕ) (view : GameView)
    (draw_below_probability : Bool) (r : ℚ) (fallback_choice : ℕ) : AIMove :=
  if view.finished then AIMove.waiting
  else if !view.is_current_turn then AIMove.waiting
  else if shouldAttemptSolve view.masked_opponent_word draw_below_probability then
    AIMove.solve
  else
    AIMove.letter (chooseLetter intelligence view.masked_opponent_word
      view.guessed_letters.toFinset r fallback_choice)

/-! ## Association-list helpers

Python dicts (`word_states_by_owner`, the room's `players` and `words`)
are insertion-ordered maps with unique keys; the model uses association
lists.  Assignment to an existing key keeps its position. -/

def alistLookup {α : Type} (l : List (String × α)) (k : String) : Option α :=
  match l with
  | [] => none
  | kv :: rest => if kv.1 = k then some kv.2 else alistLookup rest k

def alistUpdate {α : Type} (l : List (String × α)) (k : String) (v : α) :
    List (String × α) :=
  l.map (fun kv => if kv.1 = k then (k, v) else kv)

theorem alistLookup_update_self {α : Type} (l : List (String × α)) (k : String) (v : α) :
    alistLookup (alistUpdate l k v) k = (alistLookup l k).map (fun _ => v) := by
  induction l with
  | nil => rfl
  | cons kv rest ih =>
    obtain ⟨a, b⟩ := kv
    simp only [alistUpdate] at ih ⊢
    by_cases h : a = k
    · subst h
      simp [alistLookup]
    · simp [alistLookup, h, ih]

theorem alistLookup_update_other {α : Type} (l : List (String × α)) (k k' : String)
    (v : α) (hne : k' ≠ k) :
    alistLookup (alistUpdate l k v) k' = alistLookup l k' := by
  induction l with
  | nil => rfl
  | cons kv rest ih =>
    obtain ⟨a, b⟩ := kv
    simp only [alistUpdate] at ih ⊢
    by_cases h : a = k
    · subst h
      have h2 : ¬(a = k') := fun hc => hne hc.symm
      simp [alistLookup, h2, ih]
    · by_cases h' : a = k'
      · simp [alistLookup, h, h', hne]
      · simp [alistLookup, h, h', ih]

theorem alistUpdate_update {α : Type} (l : List (String × α)) (k : String) (v v' : α) :
    alistUpdate (alistUpdate l k v) k v' = alistUpdate l k v' := by
  unfold alistUpdate
  rw [List.map_map]
  congr 1
  funext kv
  by_cases h : kv.1 = k <;> simp [h]

theorem alistUpdate_of_not_mem {α : Type} (l : List (String × α)) (k : String) (v : α)
    (h : k ∉ l.map Prod.fst) : alistUpdate l k v = l := by
  induction l with
  | nil => rfl
  | cons kv rest ih =>
    simp only [List.map_cons, List.mem_cons, not_or] at h
    have h1 : ¬(kv.1 = k) := fun hc => h.1 hc.symm
    simp only [alistUpdate, List.map_cons, if_neg h1] at ih ⊢
    rw [ih h.2]

theorem alistUpdate_self {α : Type} (l : List (String × α)) (k : String) (v : α)
    (hk : (l.map Prod.fst).Nodup) (hv : alistLookup l k = some v) :
    alistUpdate l k v = l := by
  induction l with
  | nil => rfl
  | cons kv rest ih =>
    obtain ⟨a, b⟩ := kv
    simp only [List.map_cons, List.nodup_cons] at hk
    by_cases h : a = k
    · subst h
      have hb : b = v := by simpa [alistLookup] using hv
      subst hb
      have htail : alistUpdate rest a b = rest := alistUpdate_of_not_mem rest a b hk.1
      simp only [alistUpdate] at htail ⊢
      simp [htail]
    · have hv' : alistLookup rest k = some v := by
        simpa [alistLookup, h] using hv
      have htail : alistUpdate rest k v = rest := ih hk.2 hv'
      simp only [alistUpdate] at htail ⊢
      simp [htail, h]

/-! ## VersusGame

Mutating methods become pure transitions.  `time.time()` reads inside
`_switch_turn` become an explicit `now : ℚ` parameter; methods that can
raise (`IndexError` from `players[current_player_index]`, `ValueError`
from `get_opponent_of`, `KeyError` from the dict subscript) return
`none` in the raising case. -/

structure VersusGame where
  id : String
  players : List PlayerRec
  word_states_by_owner : List (String × WordState)
  current_player_index : ℕ
  finished : Bool
  winner_id : Option String
  turn_started_at : ℚ
deriving DecidableEq

/-- Constructor `VersusGame.__init__`: the fresh uuid, the random initial
turn index (`random.choice([0, 1])`) and the clock reading become
parameters. -/
def create_versus (id : String) (player1 player2 : PlayerRec)
    (word_for_player1 word_for_player2 : List Char)
    (initial_index : ℕ) (now : ℚ) : VersusGame :=
  { id := id
    players := [player1, player2]
    word_states_by_owner :=
      [(player1.id, mkWordState word_for_player1), (player2.id, mkWordState word_for_player2)]
    current_player_index := initial_index
    finished := false
    winner_id := none
    turn_started_at := now }

/-- Model of `VersusGame.get_current_player`; `none` models the
`IndexError` of `self.players[self.current_player_index]` when the index
is out of range (Python's negative-index wraparound is not modelled; no
reachable state has a negative index). -/
def VersusGame.get_current_player (g : VersusGame) : Option PlayerRec :=
  g.players.get? g.current_player_index

/-- Model of `VersusGame.get_opponent_of`; `none` models the two
`ValueError` raises (player count not 2, player not in the game). -/
def VersusGame.get_opponent_of (g : VersusGame) (player : PlayerRec) : Option PlayerRec :=
  if g.players.length ≠ 2 then none
  else if (g.players.get? 0).map PlayerRec.id = some player.id then g.players.get? 1
  else if (g.players.get? 1).map PlayerRec.id = some player.id then g.players.get? 0
  else none

/-- Model of `VersusGame._switch_turn`. -/
def VersusGame.switch_turn (g : VersusGame) (now : ℚ) : VersusGame :=
  { g with current_player_index := 1 - g.current_player_index
           turn_started_at := now }

/-- Model of `VersusGame.guess_letter`.  Returns the successor state and
the method's boolean result, or `none` when the Python code would raise. -/
def VersusGame.guess_letter (g : VersusGame) (player : PlayerRec) (letter : List Char)
    (now : ℚ) : Option (VersusGame × Bool) :=
  if g.finished then some (g, false)
  else
    match g.get_current_player with
    | none => none
    | some current_player =>
      if player.id ≠ current_player.id then some (g, false)
      else
        match g.get_opponent_of player with
        | none => none
        | some opponent =>
          match alistLookup g.word_states_by_owner opponent.id with
          | none => none
          | some opponent_word_state =>
            let res := opponent_word_state.apply_guess letter
            let g2 : VersusGame :=
              { g with word_states_by_owner :=
                  alistUpdate g.word_states_by_owner opponent.id res.1 }
            if res.1.is_fully_revealed then
              some ({ g2 with finished := true, winner_id := some player.id }, res.2)
            else if res.2 then some (g2, res.2)
            else some (g2.switch_turn now, res.2)

/-- Model of `VersusGame.ai_solve_opponent_word`.  The
`for ch in secret_word: guessed_letters.add(ch)` loop becomes a left
fold of `insert`. -/
def VersusGame.ai_solve_opponent_word (g : VersusGame) (player : PlayerRec) :
    Option VersusGame :=
  if g.finished then some g
  else
    match g.get_current_player with
    | none => none
    | some current_player =>
      if player.id ≠ current_player.id then some g
      else
        match g.get_opponent_of player with
        | none => none
        | some opponent =>
          match alistLookup g.word_states_by_owner opponent.id with
          | none => none
          | some ws =>
            let ws2 : WordState :=
              ⟨ws.secret_word,
               ws.secret_word.foldl (fun s ch => insert ch s) ws.guessed_letters⟩
            some { g with
              word_states_by_owner := alistUpdate g.word_states_by_owner opponent.id ws2
              finished := true
              winner_id := some player.id }

/-- Sequentially guessing a list of single letters through
`guess_letter`, threading the state (and propagating a raise). -/
def seqGuess (g : VersusGame) (player : PlayerRec) (letters : List Char) (now : ℚ) :
    Option VersusGame :=
  letters.foldl
    (fun og c => og.bind (fun g => (g.guess_letter player [c] now).map Prod.fst))
    (some g)

/-- The unguessed characters of a word, in word order without
duplicates: guessing exactly these completes the word. -/
def WordState.remainingLetters (ws : WordState) : List Char :=
  (ws.secret_word.filter (fun c => decide (c ∉ ws.guessed_letters))).dedup

/-! ### VersusGame serialization -/

/-- One entry of the serialized `players` list.  `to_dict` writes
`intelligence` only for AI players; `from_dict` reads it with
`.get("intelligence", 50)` and reads `type` with `.get("type",
"generic")` (`to_dict` always writes a `type`, so the model keeps the
field total). -/
structure VersusPlayerDict where
  id : String
  name : String
  type : String
  intelligence : Option ℤ
deriving DecidableEq

structure VersusDict where
  id : String
  players : List VersusPlayerDict
  word_states_by_owner : List (String × WordStateDict)
  current_player_index : ℕ
  finished : Bool
  winner_id : Option String
  turn_started_at : ℚ
deriving DecidableEq

/-- The `type` tag written for AI players. -/
def aiTag : String := "ai"

/-- The `type` tag written for human players. -/
def humanTag : String := "human"

/-- The `type` tag written for generic players. -/
def genericTag : String := "generic"

def playerToDict (p : PlayerRec) : VersusPlayerDict :=
  match p.kind with
  | PlayerKind.ai n => ⟨p.id, p.name, aiTag, some (n : ℤ)⟩
  | PlayerKind.human => ⟨p.id, p.name, humanTag, none⟩
  | PlayerKind.generic => ⟨p.id, p.name, genericTag, none⟩

def playerFromDict (p : VersusPlayerDict) : PlayerRec :=
  if p.type = humanTag then mkHumanPlayer p.id p.name
  else if p.type = aiTag then mkAIPlayer p.id p.name (p.intelligence.getD 50)
  else ⟨p.id, p.name, PlayerKind.generic⟩

def VersusGame.to_dict (g : VersusGame) : VersusDict :=
  { id := g.id
    players := g.players.map playerToDict
    word_states_by_owner :=
      g.word_states_by_owner.map (fun kv => (kv.1, kv.2.to_dict))
    current_player_index := g.current_player_index
    finished := g.finished
    winner_id := g.winner_id
    turn_started_at := g.turn_started_at }

/-- Model of `VersusGame.from_dict`.  It rebuilds the players, raises
`ValueError` (`none`) unless there are exactly two, reads the two
stored secret words (raising `KeyError`, i.e. `none`, if either
player's entry is missing), runs the constructor, and overwrites every
field with the stored values.  The constructor's fresh uuid, random
initial index, clock reading and the two words passed to it are all
overwritten, so the model collapses constructor-then-overwrite into one
record. -/
def VersusGame.from_dict (d : VersusDict) : Option VersusGame :=
  let players := d.players.map playerFromDict
  if players.length ≠ 2 then none
  else
    match players.get? 0, players.get? 1 with
    | some p1, some p2 =>
      match alistLookup d.word_states_by_owner p1.id,
            alistLookup d.word_states_by_owner p2.id with
      | some _, some _ =>
        some { id := d.id
               players := players
               word_states_by_owner :=
                 d.word_states_by_owner.map (fun kv => (kv.1, WordState.from_dict kv.2))
               current_player_index := d.current_player_index
               finished := d.finished
               winner_id := d.winner_id
               turn_started_at := d.turn_started_at }
      | _, _ => none
    | _, _ => none

/-! ## GameRoom (`app.py`) -/

structure GameRoom where
  room_id : String
  players : List (String × PlayerRec)
  words : List (String × Option (List Char))
  game : Option VersusGame
  version : ℕ
deriving DecidableEq

/-- A freshly created room (`GameRoom.__init__`, reached through
`get_or_create_room` on an unseen room id). -/
def mkGameRoom (room_id : String) : GameRoom :=
  ⟨room_id, [], [], none, 0⟩

/-- Model of `GameRoom.add_player`: returns the updated room and the
boolean result.  A player already in the room is reported as success
without any change; otherwise the player is admitted only while the room
has fewer than two players, which bumps `version` by one and initializes
the player's word slot to `None`. -/
def GameRoom.add_player (room : GameRoom) (player : PlayerRec) : GameRoom × Bool :=
  if (alistLookup room.players player.id).isSome then (room, true)
  else if 2 ≤ room.players.length then (room, false)
  else
    ({ room with
        players := room.players ++ [(player.id, player)]
        words := room.words ++ [(player.id, none)]
        version := room.version + 1 }, true)

/-! ## Helper lemmas -/

theorem shouldAttemptSolve_blank (masked : List Char) (draw : Bool)
    (h : masked.all (fun ch => ch == '_') = true) :
    shouldAttemptSolve masked draw = false := by
  unfold shouldAttemptSolve
  by_cases hl : masked.length = 0
  · simp [hl]
  · have hz : revealedCount masked = 0 := by
      unfold revealedCount
      rw [List.countP_eq_zero]
      intro a ha
      have := List.all_eq_true.mp h a ha
      simp only [beq_iff_eq] at this
      simp [this]
    simp [hl, hz]

/-! ## C8: the opponent policy never attempts a solve on a blank word -/

/-- C8: for every intelligence value in [0, 100], every view whose masked
opponent word contains no revealed (non-underscore) character, and every
random outcome (the draw-vs-probability comparison, the sampling draw and
the fallback index), `decide_move` does not return a solve attempt: the
code returns from `_should_attempt_solve` before the probability is even
computed, so the solve probability is exactly 0. -/
theorem decide_move_no_solve_on_blank (intelligence : ℕ) (view : GameView)
    (draw_below_probability : Bool) (r : ℚ) (fallback_choice : ℕ)
    (hint : intelligence ≤ 100)
    (hblank : view.masked_opponent_word.all (fun ch => ch == '_') = true) :
    decide_move intelligence view draw_below_probability r fallback_choice ≠
      AIMove.solve := by
  unfold decide_move
  by_cases hf : view.finished
  · simp [hf]
  · by_cases ht : view.is_current_turn
    · simp [hf, ht, shouldAttemptSolve_blank _ _ hblank]
    · simp [hf, ht]

/-- Witness for C8 at a concrete blank three-letter view. -/
theorem decide_move_no_solve_on_blank_witness :
    decide_move 0 ⟨['_', '_', '_'], [], true, false⟩ true 0 0 ≠ AIMove.solve :=
  decide_move_no_solve_on_blank 0 ⟨['_', '_', '_'], [], true, false⟩ true 0 0
    (by decide) (by decide)

/-! ## C9: versus decode rejects player lists of the wrong arity -/

/-- C9: `VersusGame.from_dict` fails (raises, modelled as `none`) on any
input whose `players` list does not have length exactly 2, and every
game it does return has exactly 2 players. -/
theorem from_dict_requires_two_players :
    (∀ d : VersusDict, d.players.length ≠ 2 → VersusGame.from_dict d = none) ∧
    (∀ (d : VersusDict) (g : VersusGame), VersusGame.from_dict d = some g →
      g.players.length = 2) := by
  constructor
  · intro d hne
    have h2 : (d.players.map playerFromDict).length ≠ 2 := by
      simpa using hne
    simp only [VersusGame.from_dict]
    rw [if_pos h2]
  · intro d g h
    simp only [VersusGame.from_dict] at h
    by_cases h2 : (d.players.map playerFromDict).length ≠ 2
    · rw [if_pos h2] at h
      exact Option.noConfusion h
    · rw [if_neg h2] at h
      push_neg at h2
      split at h
      · split at h
        · rw [Option.some.injEq] at h
          subst h
          simpa using h2
        · exact Option.noConfusion h
      · exact Option.noConfusion h

/-- Witness for C9: a one-player dict is rejected. -/
theorem from_dict_requires_two_players_witness :
    VersusGame.from_dict
      { id := "g1"
        players := [{ id := "p1", name := "P", type := "human", intelligence := none }]
        word_states_by_owner := []
        current_player_index := 0
        finished := false
        winner_id := none
        turn_started_at := 0 } = none :=
  from_dict_requires_two_players.1 _ (by decide)

/-! ## C7: room joining

The claim as stated is falsified by a rejoin: `add_player` returns
`True` (not `False`) for a player already in the room, leaving the room
unchanged. -/

def pAlice : PlayerRec := { id := "a", name := "Alice", kind := PlayerKind.human }

def pBob : PlayerRec := { id := "b", name := "Bob", kind := PlayerKind.human }

def pCarol : PlayerRec := { id := "c", name := "Carol", kind := PlayerKind.human }

/-- Counterexample to C7 as stated: joining a room that already contains
the same player does not return false — it returns true (and leaves the
room unchanged, without touching `version`). -/
theorem add_player_rejoin_cex :
    (((mkGameRoom "r1").add_player pAlice).1.add_player pAlice).2 = true ∧
    ((mkGameRoom "r1").add_player pAlice).1.add_player pAlice =
      (((mkGameRoom "r1").add_player pAlice).1, true) := by
  constructor <;> rfl

/-- C7 (amended): `add_player` admits a player exactly when the id is
not yet present and the room holds fewer than two players, bumping
`version` by exactly one; a player already present is reported as
success with no change; a full room rejects a new player with `false`
and no change.  Two joins of distinct players to a fresh room succeed
and a third distinct player is rejected. -/
theorem add_player_spec :
    (∀ (room : GameRoom) (p : PlayerRec),
      (alistLookup room.players p.id).isSome = true →
      room.add_player p = (room, true)) ∧
    (∀ (room : GameRoom) (p : PlayerRec),
      alistLookup room.players p.id = none →
      room.players.length < 2 →
      room.add_player p =
        ({ room with
            players := room.players ++ [(p.id, p)]
            words := room.words ++ [(p.id, none)]
            version := room.version + 1 }, true)) ∧
    (∀ (room : GameRoom) (p : PlayerRec),
      alistLookup room.players p.id = none →
      2 ≤ room.players.length →
      room.add_player p = (room, false)) ∧
    (∀ (rid : String) (a b c : PlayerRec),
      a.id ≠ b.id → a.id ≠ c.id → b.id ≠ c.id →
      ((mkGameRoom rid).add_player a).2 = true ∧
      (((mkGameRoom rid).add_player a).1.add_player b).2 = true ∧
      ((((mkGameRoom rid).add_player a).1.add_player b).1.add_player c).2 = false ∧
      ((((mkGameRoom rid).add_player a).1.add_player b).1.add_player c).1 =
        (((mkGameRoom rid).add_player a).1.add_player b).1) := by
  refine ⟨?_, ?_, ?_, ?_⟩
  · intro room p h
    unfold GameRoom.add_player
    rw [if_pos h]
  · intro room p h hlt
    unfold GameRoom.add_player
    rw [if_neg (by simp [h]), if_neg (by omega)]
  · intro room p h hge
    unfold GameRoom.add_player
    rw [if_neg (by simp [h]), if_pos hge]
  · intro rid a b c hab hac hbc
    have s1 : (mkGameRoom rid).add_player a =
        ((⟨rid, [(a.id, a)], [(a.id, none)], none, 1⟩ : GameRoom), true) := by
      unfold GameRoom.add_player mkGameRoom
      simp [alistLookup]
    have s2 : (⟨rid, [(a.id, a)], [(a.id, none)], none, 1⟩ : GameRoom).add_player b =
        ((⟨rid, [(a.id, a), (b.id, b)], [(a.id, none), (b.id, none)], none, 2⟩ :
          GameRoom), true) := by
      unfold GameRoom.add_player
      rw [if_neg (by simp [alistLookup, hab]), if_neg (by simp)]
      rfl
    have s3 : (⟨rid, [(a.id, a), (b.id, b)], [(a.id, none), (b.id, none)], none, 2⟩ :
          GameRoom).add_player c =
        ((⟨rid, [(a.id, a), (b.id, b)], [(a.id, none), (b.id, none)], none, 2⟩ :
          GameRoom), false) := by
      unfold GameRoom.add_player
      rw [if_neg (by simp [alistLookup, hac, hbc]), if_pos (by simp)]
    simp [s1, s2, s3]

/-- Witness for C7 (amended) at three concrete players. -/
theorem add_player_spec_witness :
    ((mkGameRoom "r2").add_player pAlice).2 = true ∧
    (((mkGameRoom "r2").add_player pAlice).1.add_player pBob).2 = true ∧
    ((((mkGameRoom "r2").add_player pAlice).1.add_player pBob).1.add_player pCarol).2
      = false ∧
    ((((mkGameRoom "r2").add_player pAlice).1.add_player pBob).1.add_player pCarol).1 =
      (((mkGameRoom "r2").add_player pAlice).1.add_player pBob).1 :=
  add_player_spec.2.2.2 "r2" pAlice pBob pCarol (by decide) (by decide) (by decide)

/-! ## C10: the AI never repeats a letter guess -/

theorem sampleCDF_mem (r : ℚ) :
    ∀ (l : List (Char × ℚ)) (cum : ℚ) (ch : Char),
      sampleCDF r cum l = some ch → ch ∈ l.map Prod.fst := by
  intro l
  induction l with
  | nil => intro cum ch h; exact Option.noConfusion h
  | cons p rest ih =>
    intro cum ch h
    unfold sampleCDF at h
    by_cases hc : r ≤ cum + p.2
    · rw [if_pos hc, Option.some.injEq] at h
      subst h
      simp
    · rw [if_neg hc] at h
      exact List.mem_cons_of_mem _ (ih _ ch h)

theorem getLastD_mem {α : Type} :
    ∀ (l : List α) (d : α), l ≠ [] → l.getLastD d ∈ l := by
  intro l
  induction l with
  | nil => intro d h; exact absurd rfl h
  | cons a t ih =>
    intro d _
    rw [List.getLastD_cons]
    by_cases ht : t = []
    · subst ht; simp
    · exact List.mem_cons_of_mem a (ih a ht)

/-- C10: whenever at least one of the 26 lowercase letters is unguessed,
`_choose_letter` returns a lowercase letter outside the guessed set (for
every sampling draw and fallback index), and when all 26 letters are
guessed it returns the fixed fallback letter e. -/
theorem choose_letter_fresh (intelligence : ℕ) (masked : List Char)
    (guessed : Finset Char) (r : ℚ) (fallback_choice : ℕ) :
    (asciiLowercase.filter (fun c => decide (c ∉ guessed)) ≠ [] →
      chooseLetter intelligence masked guessed r fallback_choice ∈ asciiLowercase ∧
      chooseLetter intelligence masked guessed r fallback_choice ∉ guessed) ∧
    (asciiLowercase.filter (fun c => decide (c ∉ guessed)) = [] →
      chooseLetter intelligence masked guessed r fallback_choice = 'e') := by
  constructor
  · intro hne
    have hmem : chooseLetter intelligence masked guessed r fallback_choice ∈
        asciiLowercase.filter (fun c => decide (c ∉ guessed)) := by
      unfold chooseLetter
      rw [if_neg hne]
      set rem := asciiLowercase.filter (fun c => decide (c ∉ guessed)) with hrem
      by_cases htot : (rem.map LETTER_FREQUENCIES).sum ≤ 0
      · rw [if_pos htot]
        have hlen : fallback_choice % rem.length < rem.length :=
          Nat.mod_lt _ (List.length_pos.mpr hne)
        rw [List.getD_eq_getElem rem 'e' hlen]
        exact List.getElem_mem hlen
      · rw [if_neg htot]
        simp only []
        split
        · next ch hs =>
          have := sampleCDF_mem r _ 0 ch hs
          rwa [List.map_fst_zip _ _ (by simp)] at this
        · next hs => exact getLastD_mem rem 'e' hne
    have h2 := List.mem_filter.mp hmem
    exact ⟨h2.1, by simpa using h2.2⟩
  · intro he
    unfold chooseLetter
    rw [if_pos he]

/-- Witness for C10 at a concrete fresh game (no guessed letters) and at
a fully exhausted alphabet. -/
theorem choose_letter_fresh_witness :
    (chooseLetter 50 [] ∅ (1/2) 0 ∈ asciiLowercase ∧
      chooseLetter 50 [] ∅ (1/2) 0 ∉ (∅ : Finset Char)) ∧
    chooseLetter 50 [] asciiLowercase.toFinset (1/2) 0 = 'e' :=
  ⟨(choose_letter_fresh 50 [] ∅ (1/2) 0).1 (by decide),
   (choose_letter_fresh 50 [] asciiLowercase.toFinset (1/2) 0).2 (by decide)⟩

/-! ## C6: the guessed-letter invariant

Python's `str.isalpha` accepts far more than ASCII, so a guess such as
`"é"` passes `apply_guess`'s validation and lands in `guessed_letters`,
falsifying `guessedLetters ⊆ {a..z}` for arbitrary string inputs.  The
invariant that does hold: every recorded letter is alphabetic, and when
every guess is plain ASCII the recorded letters are exactly among the
26 lowercase ASCII letters. -/

/-- Iterating `apply_guess` over a sequence of raw guess strings. -/
def applyGuesses (ws : WordState) (gs : List (List Char)) : WordState :=
  gs.foldl (fun w s => (w.apply_guess s).1) ws

/-- Counterexample to C6 as stated: one `apply_guess` call with the
(Python-alphabetic, non-ASCII) guess `"é"` puts `é` into
`guessed_letters`, which therefore is not contained in `{a..z}`. -/
theorem guessed_letters_ascii_cex :
    ¬ (∀ x ∈ ((mkWordState ['c', 'a', 't']).apply_guess ['é']).1.guessed_letters,
        x ∈ asciiLowercase) := by
  decide

theorem ascii_pyToLower_mem_aux : ∀ n : ℕ, n < 128 →
    pyIsAlpha (pyToLower (Char.ofNat n)) = true →
    pyToLower (Char.ofNat n) ∈ asciiLowercase := by
  decide

/-- Every letter that `apply_guess` adds is the lowercase image of an
input character and passed the alphabetic check. -/
theorem apply_guess_guessed_subset (ws : WordState) (s : List Char) :
    ∀ x ∈ (ws.apply_guess s).1.guessed_letters,
      x ∈ ws.guessed_letters ∨
        (∃ c0 ∈ s, x = pyToLower c0 ∧ pyIsAlpha x = true) := by
  intro x hx
  unfold WordState.apply_guess at hx
  split at hx
  · next c heq =>
    by_cases ha : pyIsAlpha c = false
    · rw [if_pos ha] at hx
      exact Or.inl hx
    · rw [if_neg ha] at hx
      by_cases hg : c ∈ ws.guessed_letters
      · rw [if_pos hg] at hx
        exact Or.inl hx
      · rw [if_neg hg] at hx
        simp only [Finset.mem_insert] at hx
        rcases hx with rfl | hx
        · right
          cases s with
          | nil => exact absurd heq (by simp [pyStrLower])
          | cons c0 t =>
            cases t with
            | nil =>
              have : pyToLower c0 = x := by simpa [pyStrLower] using heq
              exact ⟨c0, by simp, this.symm, by simpa using ha⟩
            | cons c1 t' => exact absurd heq (by simp [pyStrLower])
        · exact Or.inl hx
  · exact Or.inl hx

theorem applyGuesses_alpha (gs : List (List Char)) : ∀ ws : WordState,
    (∀ x ∈ ws.guessed_letters, pyIsAlpha x = true) →
    ∀ x ∈ (applyGuesses ws gs).guessed_letters, pyIsAlpha x = true := by
  induction gs with
  | nil =>
    intro ws h
    simpa [applyGuesses] using h
  | cons s rest ih =>
    intro ws h
    have h1 : ∀ x ∈ ((ws.apply_guess s).1).guessed_letters, pyIsAlpha x = true := by
      intro x hx
      rcases apply_guess_guessed_subset ws s x hx with h2 | ⟨c0, _, hxeq, halpha⟩
      · exact h x h2
      · exact halpha
    simpa [applyGuesses] using ih _ h1

theorem applyGuesses_ascii (gs : List (List Char)) : ∀ ws : WordState,
    (∀ x ∈ ws.guessed_letters, x ∈ asciiLowercase) →
    (∀ s ∈ gs, ∀ c0 ∈ s, c0.toNat < 128) →
    ∀ x ∈ (applyGuesses ws gs).guessed_letters, x ∈ asciiLowercase := by
  induction gs with
  | nil =>
    intro ws h _
    simpa [applyGuesses] using h
  | cons s rest ih =>
    intro ws h hascii
    have h1 : ∀ x ∈ ((ws.apply_guess s).1).guessed_letters, x ∈ asciiLowercase := by
      intro x hx
      rcases apply_guess_guessed_subset ws s x hx with h2 | ⟨c0, hc0, hxeq, halpha⟩
      · exact h x h2
      · have hlt : c0.toNat < 128 := hascii s (by simp) c0 hc0
        have := ascii_pyToLower_mem_aux c0.toNat hlt
        rw [Char.ofNat_toNat] at this
        subst hxeq
        exact this halpha
    have h2 : ∀ s1 ∈ rest, ∀ c0 ∈ s1, c0.toNat < 128 := by
      intro s1 hs1 c0 hc0
      exact hascii s1 (by simp [hs1]) c0 hc0
    simpa [applyGuesses] using ih _ h1 h2

/-- C6 (amended): along every sequence of `apply_guess` calls from a
freshly constructed `WordState`, every recorded guessed letter is
alphabetic (Python's classification, which is wider than `{a..z}`); when
every guess consists of ASCII characters the recorded letters all lie in
the 26 lowercase ASCII letters; and the masked rendering is a function
of the secret word and the guessed-letter set alone. -/
theorem word_state_guessed_invariant (w : List Char) (gs : List (List Char)) :
    (∀ x ∈ (applyGuesses (mkWordState w) gs).guessed_letters, pyIsAlpha x = true) ∧
    ((∀ s ∈ gs, ∀ c0 ∈ s, c0.toNat < 128) →
      ∀ x ∈ (applyGuesses (mkWordState w) gs).guessed_letters, x ∈ asciiLowercase) ∧
    (∀ ws1 ws2 : WordState, ws1.secret_word = ws2.secret_word →
      ws1.guessed_letters = ws2.guessed_letters → ws1.masked_word = ws2.masked_word) := by
  refine ⟨?_, ?_, ?_⟩
  · exact applyGuesses_alpha gs (mkWordState w) (by simp [mkWordState])
  · intro hascii
    exact applyGuesses_ascii gs (mkWordState w) (by simp [mkWordState]) hascii
  · intro ws1 ws2 hsec hgu
    unfold WordState.masked_word
    rw [hsec, hgu]

/-- Witness for C6 (amended): guessing the ASCII strings "A" then "zz"
then "q" against the word "cat". -/
theorem word_state_guessed_invariant_witness :
    (∀ x ∈ (applyGuesses (mkWordState ['c', 'a', 't'])
        [['A'], ['z', 'z'], ['q']]).guessed_letters, pyIsAlpha x = true) ∧
    (∀ x ∈ (applyGuesses (mkWordState ['c', 'a', 't'])
        [['A'], ['z', 'z'], ['q']]).guessed_letters, x ∈ asciiLowercase) := by
  have h := word_state_guessed_invariant ['c', 'a', 't'] [['A'], ['z', 'z'], ['q']]
  exact ⟨h.1, h.2.1 (by decide)⟩

/-! ## C2: solo termination invariant -/

/-- Solo states reachable from the constructor by any sequence of
guesses.  Construction parameters obey the spec's data model:
`maxAttempts` is a positive int and the secret word is nonempty (the
word pool is filtered to non-empty words). -/
inductive SoloReachable : SinglePlayerGame → Prop
  | init (id : String) (player : PlayerRec) (secret_word : List Char)
      (max_attempts : ℕ) (hw : secret_word ≠ []) (hm : 1 ≤ max_attempts) :
      SoloReachable (create_solo id player secret_word max_attempts)
  | step (g : SinglePlayerGame) (letter : List Char) :
      SoloReachable g → SoloReachable (g.guess letter)

/-- The solo invariant: `finished` tracks exhaustion-or-reveal, `won`
only reveal; the construction constraints ride along. -/
def SoloInv (g : SinglePlayerGame) : Prop :=
  (g.finished = true ↔
    (g.max_attempts ≤ g.wrong_guesses ∨ ∀ c ∈ g.secret_word, c ∈ g.guessed_letters)) ∧
  (g.won = true →
    (∀ c ∈ g.secret_word, c ∈ g.guessed_letters) ∧ g.wrong_guesses < g.max_attempts) ∧
  1 ≤ g.max_attempts ∧ g.secret_word ≠ []

theorem soloInv_init (id : String) (player : PlayerRec) (secret_word : List Char)
    (max_attempts : ℕ) (hw : secret_word ≠ []) (hm : 1 ≤ max_attempts) :
    SoloInv (create_solo id player secret_word max_attempts) := by
  unfold SoloInv create_solo
  refine ⟨?_, by simp, hm, by simpa [pyStrLower] using hw⟩
  have hrev : ¬ ∀ c ∈ pyStrLower secret_word, c ∈ (∅ : Finset Char) := by
    intro hall
    cases hsw : secret_word with
    | nil => exact hw hsw
    | cons c0 t =>
      exact absurd (hall (pyToLower c0) (by simp [hsw, pyStrLower])) (by simp)
  simp only []
  constructor
  · intro hc; exact absurd hc (by simp)
  · rintro (hc | hc)
    · omega
    · exact absurd hc hrev

theorem soloInv_step (g : SinglePlayerGame) (letter : List Char) (h : SoloInv g) :
    SoloInv (g.guess letter) := by
  obtain ⟨hiff, hwon, hm, hsw⟩ := h
  unfold SinglePlayerGame.guess
  by_cases hf : g.finished
  · rw [if_pos hf]; exact ⟨hiff, hwon, hm, hsw⟩
  · rw [if_neg hf]
    have hnotyet : ¬(g.max_attempts ≤ g.wrong_guesses ∨
        ∀ c ∈ g.secret_word, c ∈ g.guessed_letters) := by
      intro hc
      have := hiff.mpr hc
      exact hf (by simp [this])
    push_neg at hnotyet
    obtain ⟨hlt, hnrev⟩ := hnotyet
    split
    · next c heq =>
      by_cases ha : pyIsAlpha c = false
      · rw [if_pos ha]; exact ⟨hiff, hwon, hm, hsw⟩
      · rw [if_neg ha]
        by_cases hg : c ∈ g.guessed_letters
        · rw [if_pos hg]; exact ⟨hiff, hwon, hm, hsw⟩
        · rw [if_neg hg]
          by_cases hout : c ∉ g.secret_word
          · rw [if_pos hout]
            by_cases hmax : g.max_attempts ≤ g.wrong_guesses + 1
            · rw [if_pos hmax]
              refine ⟨⟨fun _ => Or.inl hmax, fun _ => rfl⟩, ?_, hm, hsw⟩
              intro hc
              have hc' : false = true := hc
              exact Bool.noConfusion hc'
            · rw [if_neg hmax]
              refine ⟨⟨fun hc => absurd hc hf, ?_⟩, ?_, hm, hsw⟩
              · rintro (hc | hc)
                · have hc' : g.max_attempts ≤ g.wrong_guesses + 1 := hc
                  exact absurd hc' hmax
                · obtain ⟨x, hx1, hx2⟩ := hnrev
                  have hc' : x ∈ insert c g.guessed_letters := hc x hx1
                  rcases Finset.mem_insert.mp hc' with hxc | hxg
                  · exact absurd (hxc ▸ hx1) hout
                  · exact absurd hxg hx2
              · intro hwtrue
                have hw' : g.won = true := hwtrue
                obtain ⟨hrev, _⟩ := hwon hw'
                exact ⟨fun x hx => Finset.mem_insert_of_mem (hrev x hx),
                       not_le.mp hmax⟩
          · rw [if_neg hout]
            by_cases hall : g.secret_word.all
                (fun ch => decide (ch ∈ insert c g.guessed_letters)) = true
            · rw [if_pos hall]
              have hrevnew : ∀ x ∈ g.secret_word, x ∈ insert c g.guessed_letters :=
                fun x hx => of_decide_eq_true (List.all_eq_true.mp hall x hx)
              refine ⟨⟨fun _ => Or.inr hrevnew, fun _ => rfl⟩, ?_, hm, hsw⟩
              intro _
              exact ⟨hrevnew, hlt⟩
            · rw [if_neg hall]
              refine ⟨⟨fun hc => absurd hc hf, ?_⟩, ?_, hm, hsw⟩
              · rintro (hc | hc)
                · have hc' : g.max_attempts ≤ g.wrong_guesses := hc
                  exact absurd hc' (by omega)
                · have hc' : ∀ x ∈ g.secret_word, x ∈ insert c g.guessed_letters := hc
                  exact absurd (List.all_eq_true.mpr
                    (fun x hx => decide_eq_true (hc' x hx))) hall
              · intro hwtrue
                have hw' : g.won = true := hwtrue
                obtain ⟨hrev, hcnt⟩ := hwon hw'
                exact ⟨fun x hx => Finset.mem_insert_of_mem (hrev x hx), hcnt⟩
    · exact ⟨hiff, hwon, hm, hsw⟩

theorem soloInv_of_reachable (g : SinglePlayerGame) (h : SoloReachable g) :
    SoloInv g := by
  induction h with
  | init id player secret_word max_attempts hw hm => exact soloInv_init _ _ _ _ hw hm
  | step g letter _ ih => exact soloInv_step g letter ih

/-- C2: in every reachable solo state, `finished` holds iff the attempt
budget is exhausted or every character of the secret word has been
guessed, and `won` holds only in the full-reveal case (with attempts to
spare, never by exhaustion). -/
theorem solo_finished_won_invariant (g : SinglePlayerGame) (h : SoloReachable g) :
    (g.finished = true ↔
      (g.max_attempts ≤ g.wrong_guesses ∨ ∀ c ∈ g.secret_word, c ∈ g.guessed_letters)) ∧
    (g.won = true →
      (∀ c ∈ g.secret_word, c ∈ g.guessed_letters) ∧
        g.wrong_guesses < g.max_attempts) := by
  obtain ⟨h1, h2, _, _⟩ := soloInv_of_reachable g h
  exact ⟨h1, h2⟩

/-- Witness for C2: the state reached by guessing "z" then "a" against
the word "cat" with two attempts. -/
theorem solo_finished_won_invariant_witness :
    (((create_solo "s1" pAlice ['c', 'a', 't'] 2).guess ['z']).guess ['a']).finished
        = true ↔
      (((create_solo "s1" pAlice ['c', 'a', 't'] 2).guess ['z']).guess
          ['a']).max_attempts ≤
        (((create_solo "s1" pAlice ['c', 'a', 't'] 2).guess ['z']).guess
          ['a']).wrong_guesses ∨
      ∀ c ∈ (((create_solo "s1" pAlice ['c', 'a', 't'] 2).guess ['z']).guess
          ['a']).secret_word,
        c ∈ (((create_solo "s1" pAlice ['c', 'a', 't'] 2).guess ['z']).guess
          ['a']).guessed_letters :=
  (solo_finished_won_invariant _
    (SoloReachable.step _ ['a'] (SoloReachable.step _ ['z']
      (SoloReachable.init "s1" pAlice ['c', 'a', 't'] 2 (by decide) (by decide))))).1

/-! ## Versus guessing: helper characterizations -/

/-- A guess string that `WordState.apply_guess` rejects without change:
not exactly one alphabetic character after lowering, or already
guessed. -/
def guessRejected (guessed : Finset Char) (letter : List Char) : Bool :=
  match pyStrLower letter with
  | [c] => !pyIsAlpha c || decide (c ∈ guessed)
  | _ => true

theorem apply_guess_of_rejected (ws : WordState) (letter : List Char)
    (h : guessRejected ws.guessed_letters letter = true) :
    ws.apply_guess letter = (ws, false) := by
  unfold WordState.apply_guess
  unfold guessRejected at h
  split
  · next c heq =>
    rw [heq] at h
    simp only [Bool.or_eq_true, Bool.not_eq_true', decide_eq_true_eq] at h
    rcases h with h | h
    · rw [if_pos h]
    · by_cases ha : pyIsAlpha c = false
      · rw [if_pos ha]
      · rw [if_neg ha, if_pos h]
  · rfl

theorem apply_guess_snd_iff (ws : WordState) (letter : List Char) :
    (ws.apply_guess letter).2 = true ↔
      ∃ c, pyStrLower letter = [c] ∧ pyIsAlpha c = true ∧
        c ∉ ws.guessed_letters ∧ c ∈ ws.secret_word := by
  unfold WordState.apply_guess
  split
  · next c heq =>
    by_cases ha : pyIsAlpha c = false
    · rw [if_pos ha]
      simp [heq, ha]
    · rw [if_neg ha]
      have ha' : pyIsAlpha c = true := by
        revert ha; cases pyIsAlpha c <;> simp
      by_cases hg : c ∈ ws.guessed_letters
      · rw [if_pos hg]
        simp [heq, hg]
      · rw [if_neg hg]
        simp [heq, hg, ha']
  · next hne =>
    constructor
    · intro hc
      exact Bool.noConfusion (show false = true from hc)
    · rintro ⟨c, hc, -, -, -⟩
      exact absurd hc (hne c)

/-! ## C1: versus turn discipline -/

/-- A versus position in which the current player re-guesses a letter
that is already guessed and sits in the opponent's word. -/
def cexGameC1 : VersusGame :=
  { id := "v1"
    players := [pAlice, pBob]
    word_states_by_owner := [("a", ⟨['x'], ∅⟩), ("b", ⟨['a', 'b'], {'a'}⟩)]
    current_player_index := 0
    finished := false
    winner_id := none
    turn_started_at := 0 }

/-- Counterexample to C1 as stated: Alice (current, index 0) guesses
"a"; the letter *is* in Bob's word "ab" and the word does not become
fully revealed, so the claim requires `current_player_index` to stay 0 —
but `apply_guess` reports a repeated guess as `False` and `guess_letter`
treats that exactly like a wrong guess, switching the turn to index 1
(and resetting the turn clock). -/
theorem versus_repeated_letter_flips_turn_cex :
    cexGameC1.current_player_index = 0 ∧
    'a' ∈ (⟨['a', 'b'], ({'a'} : Finset Char)⟩ : WordState).secret_word ∧
    cexGameC1.guess_letter pAlice ['a'] 7 =
      some ({ id := "v1"
              players := [pAlice, pBob]
              word_states_by_owner := [("a", ⟨['x'], ∅⟩), ("b", ⟨['a', 'b'], {'a'}⟩)]
              current_player_index := 1
              finished := false
              winner_id := none
              turn_started_at := 7 }, false) := by
  refine ⟨rfl, by decide, ?_⟩
  decide

/-- C1 (amended): with the game unfinished and the acting player
current, `guess_letter` applies the guess to the opponent's word and
(1) if the opponent's word is now fully revealed, finishes the game
with the guesser as winner and no turn switch; (2) otherwise a guess
`apply_guess` accepted as correct (valid, new, and in the word — the
returned boolean, characterized in the first conjunct) keeps the turn
and the clock; (3) otherwise — wrong letter, but also any invalid or
repeated guess — the turn flips and the clock resets.  If the game is
finished, or the acting player is not current, the call returns `false`
and changes no state. -/
theorem guess_letter_turn_rules :
    (∀ (g : VersusGame) (p : PlayerRec) (letter : List Char) (now : ℚ),
      g.finished = true → g.guess_letter p letter now = some (g, false)) ∧
    (∀ (g : VersusGame) (p cur : PlayerRec) (letter : List Char) (now : ℚ),
      g.finished = false → g.get_current_player = some cur → p.id ≠ cur.id →
      g.guess_letter p letter now = some (g, false)) ∧
    (∀ (g : VersusGame) (cur opp : PlayerRec) (ws : WordState)
        (letter : List Char) (now : ℚ),
      g.finished = false → g.get_current_player = some cur →
      g.get_opponent_of cur = some opp →
      alistLookup g.word_states_by_owner opp.id = some ws →
      ws.is_fully_revealed = false →
      ((ws.apply_guess letter).2 = true ↔
        ∃ c, pyStrLower letter = [c] ∧ pyIsAlpha c = true ∧
          c ∉ ws.guessed_letters ∧ c ∈ ws.secret_word) ∧
      ∃ g2, g.guess_letter cur letter now = some (g2, (ws.apply_guess letter).2) ∧
        g2.word_states_by_owner =
          alistUpdate g.word_states_by_owner opp.id (ws.apply_guess letter).1 ∧
        ((ws.apply_guess letter).1.is_fully_revealed = true →
          g2.finished = true ∧ g2.winner_id = some cur.id ∧
          g2.current_player_index = g.current_player_index ∧
          g2.turn_started_at = g.turn_started_at) ∧
        ((ws.apply_guess letter).1.is_fully_revealed = false →
          (ws.apply_guess letter).2 = true →
          g2.current_player_index = g.current_player_index ∧
          g2.finished = false ∧ g2.winner_id = g.winner_id ∧
          g2.turn_started_at = g.turn_started_at) ∧
        ((ws.apply_guess letter).1.is_fully_revealed = false →
          (ws.apply_guess letter).2 = false →
          g2.current_player_index = 1 - g.current_player_index ∧
          g2.finished = false ∧ g2.winner_id = g.winner_id ∧
          g2.turn_started_at = now)) := by
  refine ⟨?_, ?_, ?_⟩
  · intro g p letter now hfin
    unfold VersusGame.guess_letter
    rw [if_pos (by simp [hfin])]
  · intro g p cur letter now hfin hcur hne
    unfold VersusGame.guess_letter
    rw [if_neg (by simp [hfin]), hcur]
    simp only [if_pos hne]
  · intro g cur opp ws letter now hfin hcur hopp hws hnotrev
    refine ⟨apply_guess_snd_iff ws letter, ?_⟩
    unfold VersusGame.guess_letter
    rw [if_neg (by simp [hfin]), hcur]
    simp only []
    rw [if_neg (show ¬(cur.id ≠ cur.id) by simp), hopp]
    simp only []
    rw [hws]
    simp only []
    by_cases hrev : ((ws.apply_guess letter).1).is_fully_revealed = true
    · rw [if_pos hrev]
      refine ⟨_, rfl, rfl, fun _ => ⟨rfl, rfl, rfl, rfl⟩, ?_, ?_⟩
      · intro hc _; exact absurd hrev (by simp [hc])
      · intro hc _; exact absurd hrev (by simp [hc])
    · rw [if_neg hrev]
      by_cases hb : (ws.apply_guess letter).2 = true
      · rw [if_pos (by simp [hb])]
        refine ⟨_, by rw [hb], rfl, fun hc => absurd hc (by simp [hrev]), ?_, ?_⟩
        · intro _ _; exact ⟨rfl, hfin, rfl, rfl⟩
        · intro _ hc; exact absurd hb (by simp [hc])
      · rw [if_neg (by simpa using hb)]
        have hb' : (ws.apply_guess letter).2 = false := by
          revert hb; cases (ws.apply_guess letter).2 <;> simp
        refine ⟨_, by rw [hb'], rfl, fun hc => absurd hc (by simp [hrev]), ?_, ?_⟩
        · intro _ hc; exact absurd hc (by simp [hb'])
        · intro _ _; exact ⟨rfl, hfin, rfl, rfl⟩

/-- Witness for C1 (amended) at a concrete position: Alice (current)
guesses the fresh wrong letter "z" against Bob's word "ab". -/
theorem guess_letter_turn_rules_witness :
    ∃ g2, cexGameC1.guess_letter pAlice ['z'] 3 =
        some (g2, ((⟨['a', 'b'], ({'a'} : Finset Char)⟩ : WordState).apply_guess
          ['z']).2) ∧
      g2.word_states_by_owner =
        alistUpdate cexGameC1.word_states_by_owner "b"
          ((⟨['a', 'b'], ({'a'} : Finset Char)⟩ : WordState).apply_guess ['z']).1 ∧
      (((⟨['a', 'b'], ({'a'} : Finset Char)⟩ : WordState).apply_guess
          ['z']).1.is_fully_revealed = true →
        g2.finished = true ∧ g2.winner_id = some pAlice.id ∧
        g2.current_player_index = cexGameC1.current_player_index ∧
        g2.turn_started_at = cexGameC1.turn_started_at) ∧
      (((⟨['a', 'b'], ({'a'} : Finset Char)⟩ : WordState).apply_guess
          ['z']).1.is_fully_revealed = false →
        ((⟨['a', 'b'], ({'a'} : Finset Char)⟩ : WordState).apply_guess ['z']).2 = true →
        g2.current_player_index = cexGameC1.current_player_index ∧
        g2.finished = false ∧ g2.winner_id = cexGameC1.winner_id ∧
        g2.turn_started_at = cexGameC1.turn_started_at) ∧
      (((⟨['a', 'b'], ({'a'} : Finset Char)⟩ : WordState).apply_guess
          ['z']).1.is_fully_revealed = false →
        ((⟨['a', 'b'], ({'a'} : Finset Char)⟩ : WordState).apply_guess ['z']).2 = false →
        g2.current_player_index = 1 - cexGameC1.current_player_index ∧
        g2.finished = false ∧ g2.winner_id = cexGameC1.winner_id ∧
        g2.turn_started_at = 3) :=
  (guess_letter_turn_rules.2.2 cexGameC1 pAlice pBob
    ⟨['a', 'b'], ({'a'} : Finset Char)⟩ ['z'] 3 rfl rfl (by decide) (by decide)
    (by decide)).2

/-! ## C3: invalid or repeated guesses -/

/-- A versus position used to refute the claim that an invalid guess is
a complete no-op in versus mode. -/
def cexGameC3 : VersusGame :=
  { id := "v3"
    players := [pAlice, pBob]
    word_states_by_owner := [("a", ⟨['q'], ∅⟩), ("b", ⟨['x', 'y'], ∅⟩)]
    current_player_index := 0
    finished := false
    winner_id := none
    turn_started_at := 0 }

/-- Counterexample to C3 as stated: the invalid guess "!" (not an
alphabetic character) from the current player in a versus game returns
false and leaves both word states untouched, but it is *not* a state
no-op: `guess_letter` treats it as a wrong guess, flipping
`current_player_index` from 0 to 1 and resetting `turn_started_at`. -/
theorem invalid_guess_noop_cex :
    cexGameC3.current_player_index = 0 ∧ cexGameC3.turn_started_at = 0 ∧
    cexGameC3.guess_letter pAlice ['!'] 9 =
      some ({ id := "v3"
              players := [pAlice, pBob]
              word_states_by_owner := [("a", ⟨['q'], ∅⟩), ("b", ⟨['x', 'y'], ∅⟩)]
              current_player_index := 1
              finished := false
              winner_id := none
              turn_started_at := 9 }, false) := by
  refine ⟨rfl, rfl, ?_⟩
  decide

/-- C3 (amended): a rejected guess (not exactly one alphabetic character
after lowering, or a letter already guessed against the target word) is
a complete silent no-op in solo mode — the state, including the attempt
counter, is unchanged.  In versus mode the word states are untouched and
`false` is returned, but the transition is not a no-op: the rejection is
treated like a wrong guess, so the turn flips and the turn clock resets. -/
theorem rejected_guess_rules :
    (∀ (g : SinglePlayerGame) (letter : List Char),
      guessRejected g.guessed_letters letter = true → g.guess letter = g) ∧
    (∀ (g : VersusGame) (cur opp : PlayerRec) (ws : WordState)
        (letter : List Char) (now : ℚ),
      g.finished = false → g.get_current_player = some cur →
      g.get_opponent_of cur = some opp →
      alistLookup g.word_states_by_owner opp.id = some ws →
      (g.word_states_by_owner.map Prod.fst).Nodup →
      ws.is_fully_revealed = false →
      guessRejected ws.guessed_letters letter = true →
      g.guess_letter cur letter now = some (g.switch_turn now, false)) := by
  constructor
  · intro g letter hrej
    unfold SinglePlayerGame.guess
    by_cases hf : g.finished
    · rw [if_pos hf]
    · rw [if_neg hf]
      unfold guessRejected at hrej
      split
      · next c heq =>
        rw [heq] at hrej
        simp only [Bool.or_eq_true, Bool.not_eq_true', decide_eq_true_eq] at hrej
        rcases hrej with h | h
        · rw [if_pos h]
        · by_cases ha : pyIsAlpha c = false
          · rw [if_pos ha]
          · rw [if_neg ha, if_pos h]
      · rfl
  · intro g cur opp ws letter now hfin hcur hopp hws hnodup hnotrev hrej
    have happ : ws.apply_guess letter = (ws, false) :=
      apply_guess_of_rejected ws letter hrej
    unfold VersusGame.guess_letter
    rw [if_neg (by simp [hfin]), hcur]
    simp only []
    rw [if_neg (show ¬(cur.id ≠ cur.id) by simp), hopp]
    simp only []
    rw [hws]
    simp only [happ]
    rw [if_neg (by simp [hnotrev]), if_neg (by simp)]
    rw [alistUpdate_self g.word_states_by_owner opp.id ws hnodup hws]

/-- Witness for C3 (amended): rejecting the multi-character guess "xy"
in a concrete solo game and the non-alphabetic guess "!" in a concrete
versus game. -/
theorem rejected_guess_rules_witness :
    (create_solo "s9" pAlice ['c', 'a', 't'] 6).guess ['x', 'y'] =
      create_solo "s9" pAlice ['c', 'a', 't'] 6 ∧
    cexGameC3.guess_letter pAlice ['!'] 4 =
      some (cexGameC3.switch_turn 4, false) :=
  ⟨rejected_guess_rules.1 _ ['x', 'y'] (by decide),
   rejected_guess_rules.2 cexGameC3 pAlice pBob
     ⟨['x', 'y'], (∅ : Finset Char)⟩ ['!'] 4 rfl rfl (by decide) (by decide)
     (by decide) (by decide) (by decide)⟩

/-! ## C4: the atomic solve refines sequential correct guessing -/

theorem foldl_insert_eq_union (l : List Char) : ∀ s : Finset Char,
    l.foldl (fun s ch => insert ch s) s = s ∪ l.toFinset := by
  induction l with
  | nil => intro s; simp
  | cons c t ih =>
    intro s
    rw [List.foldl_cons, ih (insert c s), List.toFinset_cons, Finset.insert_union,
      Finset.union_insert]

/-- Normal form of `ai_solve_opponent_word` in a position where the
actor is current: reveal the whole opponent word at once and finish. -/
theorem ai_solve_eq (g : VersusGame) (cur opp : PlayerRec) (ws : WordState)
    (hfin : g.finished = false)
    (hcur : g.get_current_player = some cur)
    (hopp : g.get_opponent_of cur = some opp)
    (hws : alistLookup g.word_states_by_owner opp.id = some ws) :
    g.ai_solve_opponent_word cur =
      some { g with
        word_states_by_owner := alistUpdate g.word_states_by_owner opp.id
          ⟨ws.secret_word, ws.guessed_letters ∪ ws.secret_word.toFinset⟩
        finished := true
        winner_id := some cur.id } := by
  unfold VersusGame.ai_solve_opponent_word
  rw [if_neg (by simp [hfin]), hcur]
  simp only []
  rw [if_neg (show ¬(cur.id ≠ cur.id) by simp), hopp]
  simp only []
  rw [hws]
  simp only []
  rw [foldl_insert_eq_union]

/-- Guessing, one at a time, a duplicate-free list of valid lowercase
letters that are all fresh, all in the opponent's word, and together
with the already-guessed letters cover the whole word, ends the game
with the guesser as winner and exactly those letters added. -/
theorem seqGuess_covers :
    ∀ (cs : List Char) (g : VersusGame) (cur opp : PlayerRec) (ws : WordState)
      (now : ℚ),
      g.finished = false →
      g.get_current_player = some cur →
      g.get_opponent_of cur = some opp →
      alistLookup g.word_states_by_owner opp.id = some ws →
      cs ≠ [] → cs.Nodup →
      (∀ c ∈ cs, pyIsAlpha c = true ∧ pyToLower c = c ∧ c ∈ ws.secret_word ∧
        c ∉ ws.guessed_letters) →
      (∀ ch ∈ ws.secret_word, ch ∈ ws.guessed_letters ∨ ch ∈ cs) →
      seqGuess g cur cs now =
        some { g with
          word_states_by_owner := alistUpdate g.word_states_by_owner opp.id
            ⟨ws.secret_word, ws.guessed_letters ∪ cs.toFinset⟩
          finished := true
          winner_id := some cur.id } := by
  intro cs
  induction cs with
  | nil =>
    intro g cur opp ws now _ _ _ _ hne
    exact absurd rfl hne
  | cons c cs ih =>
    intro g cur opp ws now hfin hcur hopp hws _ hnodup hmem hcover
    obtain ⟨hca, hcl, hcw, hcg⟩ := hmem c (by simp)
    have happ : ws.apply_guess [c] =
        (⟨ws.secret_word, insert c ws.guessed_letters⟩, true) := by
      unfold WordState.apply_guess
      simp [pyStrLower, hcl, hca, hcg, hcw]
    have hstep : ∀ now1 : ℚ, g.guess_letter cur [c] now1 =
        (if (⟨ws.secret_word, insert c ws.guessed_letters⟩ :
              WordState).is_fully_revealed then
          some ({ g with
            word_states_by_owner := alistUpdate g.word_states_by_owner opp.id
              ⟨ws.secret_word, insert c ws.guessed_letters⟩
            finished := true
            winner_id := some cur.id }, true)
        else
          some ({ g with
            word_states_by_owner := alistUpdate g.word_states_by_owner opp.id
              ⟨ws.secret_word, insert c ws.guessed_letters⟩ }, true)) := by
      intro now1
      unfold VersusGame.guess_letter
      rw [if_neg (by simp [hfin]), hcur]
      simp only []
      rw [if_neg (show ¬(cur.id ≠ cur.id) by simp), hopp]
      simp only []
      rw [hws]
      simp only [happ]
      by_cases hrev : (⟨ws.secret_word, insert c ws.guessed_letters⟩ :
          WordState).is_fully_revealed = true
      · rw [if_pos hrev, if_pos hrev]
      · rw [if_neg hrev, if_neg hrev, if_pos trivial]
    by_cases hcs : cs = []
    · subst hcs
      have hrev : (⟨ws.secret_word, insert c ws.guessed_letters⟩ :
          WordState).is_fully_revealed = true := by
        apply List.all_eq_true.mpr
        intro x hx
        apply decide_eq_true
        rcases hcover x hx with hx1 | hx1
        · exact Finset.mem_insert_of_mem hx1
        · simp only [List.mem_singleton] at hx1
          subst hx1
          exact Finset.mem_insert_self x _
      have : seqGuess g cur [c] now =
          (g.guess_letter cur [c] now).map Prod.fst := by
        simp [seqGuess]
      rw [this, hstep now, if_pos hrev]
      have hfs : insert c ws.guessed_letters =
          ws.guessed_letters ∪ ([c] : List Char).toFinset := by
        simp [Finset.insert_eq, Finset.union_comm]
      rw [hfs]
      rfl
    · obtain ⟨c1, hc1⟩ := List.exists_mem_of_ne_nil cs hcs
      obtain ⟨hc1a, hc1l, hc1w, hc1g⟩ := hmem c1 (by simp [hc1])
      have hc1c : c1 ≠ c := by
        intro hcon
        subst hcon
        exact (List.nodup_cons.mp hnodup).1 hc1
      have hrev : (⟨ws.secret_word, insert c ws.guessed_letters⟩ :
          WordState).is_fully_revealed = false := by
        rw [← Bool.not_eq_true]
        intro hall
        have := of_decide_eq_true (List.all_eq_true.mp hall c1 hc1w)
        rcases Finset.mem_insert.mp this with hco | hco
        · exact hc1c hco
        · exact hc1g hco
      have hchain : seqGuess g cur (c :: cs) now =
          seqGuess { g with
            word_states_by_owner := alistUpdate g.word_states_by_owner opp.id
              ⟨ws.secret_word, insert c ws.guessed_letters⟩ } cur cs now := by
        unfold seqGuess
        rw [List.foldl_cons]
        have : (some g).bind
            (fun g => (g.guess_letter cur [c] now).map Prod.fst) =
            some { g with
              word_states_by_owner := alistUpdate g.word_states_by_owner opp.id
                ⟨ws.secret_word, insert c ws.guessed_letters⟩ } := by
          rw [Option.some_bind, hstep now, if_neg (by simp [hrev])]
          rfl
        rw [this]
      rw [hchain]
      rw [ih ({ g with
            word_states_by_owner := alistUpdate g.word_states_by_owner opp.id
              ⟨ws.secret_word, insert c ws.guessed_letters⟩ }) cur opp
          ⟨ws.secret_word, insert c ws.guessed_letters⟩ now hfin hcur hopp
          (by rw [show ({ g with
              word_states_by_owner := alistUpdate g.word_states_by_owner opp.id
                ⟨ws.secret_word, insert c ws.guessed_letters⟩ } :
              VersusGame).word_states_by_owner =
              alistUpdate g.word_states_by_owner opp.id
                ⟨ws.secret_word, insert c ws.guessed_letters⟩ from rfl,
            alistLookup_update_self, hws]; rfl)
          hcs (List.nodup_cons.mp hnodup).2
          ?_ ?_]
      · congr 2
        · rw [show ({ g with
              word_states_by_owner := alistUpdate g.word_states_by_owner opp.id
                ⟨ws.secret_word, insert c ws.guessed_letters⟩ } :
              VersusGame).word_states_by_owner =
              alistUpdate g.word_states_by_owner opp.id
                ⟨ws.secret_word, insert c ws.guessed_letters⟩ from rfl,
            alistUpdate_update]
          congr 2
          rw [List.toFinset_cons, Finset.insert_union, Finset.union_insert]
      · intro c2 hc2
        obtain ⟨h1, h2, h3, h4⟩ := hmem c2 (by simp [hc2])
        refine ⟨h1, h2, h3, ?_⟩
        intro hcon
        rcases Finset.mem_insert.mp hcon with hco | hco
        · exact (List.nodup_cons.mp hnodup).1 (hco ▸ hc2)
        · exact h4 hco
      · intro ch hch
        rcases hcover ch hch with h1 | h1
        · exact Or.inl (Finset.mem_insert_of_mem h1)
        · rcases List.mem_cons.mp h1 with h2 | h2
          · exact Or.inl (h2 ▸ Finset.mem_insert_self c ws.guessed_letters)
          · exact Or.inr h2

/-- C4: in any versus position where the current player may validly act
(game unfinished, actor current, opponent word present, not yet fully
revealed) and the opponent's secret word is a lowercase alphabetic
string (the data-model invariant of every constructed word), the atomic
`ai_solve_opponent_word` produces exactly the state produced by
sequentially guessing, through `guess_letter`, every remaining unguessed
character of the opponent's word — in particular the same guessed sets
and masked renderings of both words, `current_player_index`, `finished`
and `winner_id`. -/
theorem ai_solve_refines_sequential_guessing
    (g : VersusGame) (cur opp : PlayerRec) (ws : WordState) (now : ℚ)
    (hfin : g.finished = false)
    (hcur : g.get_current_player = some cur)
    (hopp : g.get_opponent_of cur = some opp)
    (hws : alistLookup g.word_states_by_owner opp.id = some ws)
    (hword : ∀ c ∈ ws.secret_word, pyIsAlpha c = true ∧ pyToLower c = c)
    (hnotrev : ws.is_fully_revealed = false) :
    g.ai_solve_opponent_word cur = seqGuess g cur ws.remainingLetters now := by
  have hne : ws.remainingLetters ≠ [] := by
    obtain ⟨x, hx, hnx⟩ := List.all_eq_false.mp hnotrev
    have hxg : x ∉ ws.guessed_letters := by simpa using hnx
    exact List.ne_nil_of_mem
      (List.mem_dedup.mpr (List.mem_filter.mpr ⟨hx, by simpa using hxg⟩))
  have hmem : ∀ c ∈ ws.remainingLetters, pyIsAlpha c = true ∧ pyToLower c = c ∧
      c ∈ ws.secret_word ∧ c ∉ ws.guessed_letters := by
    intro c hc
    have h1 := List.mem_filter.mp (List.mem_dedup.mp hc)
    have h2 : c ∉ ws.guessed_letters := by simpa using h1.2
    exact ⟨(hword c h1.1).1, (hword c h1.1).2, h1.1, h2⟩
  have hcover : ∀ ch ∈ ws.secret_word,
      ch ∈ ws.guessed_letters ∨ ch ∈ ws.remainingLetters := by
    intro ch hch
    by_cases hg : ch ∈ ws.guessed_letters
    · exact Or.inl hg
    · exact Or.inr (List.mem_dedup.mpr (List.mem_filter.mpr ⟨hch, by simpa using hg⟩))
  have hsets : ws.guessed_letters ∪ ws.remainingLetters.toFinset =
      ws.guessed_letters ∪ ws.secret_word.toFinset := by
    ext x
    simp only [Finset.mem_union, List.mem_toFinset, WordState.remainingLetters,
      List.mem_dedup, List.mem_filter, decide_eq_true_eq]
    tauto
  rw [ai_solve_eq g cur opp ws hfin hcur hopp hws,
    seqGuess_covers ws.remainingLetters g cur opp ws now hfin hcur hopp hws
      hne (List.nodup_dedup _) hmem hcover,
    hsets]

/-- A concrete versus position for the C4 witness: Alice to act against
Bob's untouched word "ab". -/
def wGameC4 : VersusGame :=
  { id := "v4"
    players := [pAlice, pBob]
    word_states_by_owner := [("a", ⟨['q'], ∅⟩), ("b", ⟨['a', 'b'], ∅⟩)]
    current_player_index := 0
    finished := false
    winner_id := none
    turn_started_at := 0 }

/-- Witness for C4 at `wGameC4`. -/
theorem ai_solve_refines_sequential_guessing_witness :
    wGameC4.ai_solve_opponent_word pAlice =
      seqGuess wGameC4 pAlice
        (WordState.remainingLetters ⟨['a', 'b'], (∅ : Finset Char)⟩) 5 :=
  ai_solve_refines_sequential_guessing wGameC4 pAlice pBob
    ⟨['a', 'b'], (∅ : Finset Char)⟩ 5 rfl rfl (by decide) (by decide)
    (by decide) (by decide)

/-! ## C5: serialization round-trips -/

theorem playerFromDict_toDict (p : PlayerRec)
    (h : ∀ n, p.kind = PlayerKind.ai n → n ≤ 100) :
    playerFromDict (playerToDict p) = p := by
  obtain ⟨pid, pname, pkind⟩ := p
  cases pkind with
  | generic =>
    unfold playerToDict playerFromDict
    simp only []
    rw [if_neg (by decide), if_neg (by decide)]
  | human =>
    unfold playerToDict playerFromDict
    simp only []
    rw [if_pos trivial]
    rfl
  | ai n =>
    have hn : n ≤ 100 := h n rfl
    unfold playerToDict playerFromDict
    simp only []
    rw [if_neg (by decide), if_pos trivial]
    unfold mkAIPlayer
    have hcl : clampIntelligence ((some ((n : ℤ))).getD 50) = n := by
      unfold clampIntelligence
      simp only [Option.getD_some]
      omega
    rw [hcl]

theorem wordState_from_to (ws : WordState)
    (h : pyStrLower ws.secret_word = ws.secret_word) :
    WordState.from_dict ws.to_dict = ws := by
  obtain ⟨sw, gl⟩ := ws
  unfold WordState.from_dict WordState.to_dict
  simp only at h
  simp [h]

theorem alistLookup_map_val {α β : Type} (f : α → β) :
    ∀ (l : List (String × α)) (k : String),
      alistLookup (l.map (fun kv => (kv.1, f kv.2))) k =
        (alistLookup l k).map f := by
  intro l
  induction l with
  | nil => intro k; rfl
  | cons kv rest ih =>
    intro k
    obtain ⟨a, b⟩ := kv
    by_cases h : a = k
    · simp [alistLookup, h]
    · simp only [List.map_cons, alistLookup, h, if_neg]
      simpa [alistLookup, h] using ih k

/-- C5: decoding an encoded state reproduces it.  For solo games the
rebuilt state agrees with the original on every field (the player is
rebuilt as a human player, which leaves every observable of the claim —
masked word, guessed letters, remaining attempts, finished, won,
winner id, game id — untouched).  For versus games, with both owners
present in the word-state table and the constructor-established
invariants (lowercase stored words, clamped AI intelligence), decode
after encode is exactly the identity, hence preserves both masked
words, the turn index, finished/winner and `turn_started_at`. -/
theorem serialization_round_trip :
    (∀ g : SinglePlayerGame, pyStrLower g.secret_word = g.secret_word →
      SinglePlayerGame.from_dict g.to_dict =
        { g with player := mkHumanPlayer g.player.id g.player.name }) ∧
    (∀ (g : VersusGame) (p0 p1 : PlayerRec) (ws0 ws1 : WordState),
      g.players = [p0, p1] →
      alistLookup g.word_states_by_owner p0.id = some ws0 →
      alistLookup g.word_states_by_owner p1.id = some ws1 →
      (∀ kv ∈ g.word_states_by_owner,
        pyStrLower kv.2.secret_word = kv.2.secret_word) →
      (∀ p ∈ g.players, ∀ n, p.kind = PlayerKind.ai n → n ≤ 100) →
      VersusGame.from_dict g.to_dict = some g) := by
  constructor
  · intro g hlow
    unfold SinglePlayerGame.from_dict SinglePlayerGame.to_dict
    simp [hlow]
  · intro g p0 p1 ws0 ws1 hp hws0 hws1 hlow hint
    have hplayers : (VersusGame.to_dict g).players.map playerFromDict = g.players := by
      unfold VersusGame.to_dict
      simp only []
      rw [List.map_map]
      have : ∀ p ∈ g.players, (playerFromDict ∘ playerToDict) p = id p := by
        intro p hp1
        exact playerFromDict_toDict p (hint p hp1)
      rw [List.map_congr_left this, List.map_id]
    have hwords : (VersusGame.to_dict g).word_states_by_owner.map
        (fun kv => (kv.1, WordState.from_dict kv.2)) = g.word_states_by_owner := by
      unfold VersusGame.to_dict
      simp only []
      rw [List.map_map]
      have : ∀ kv ∈ g.word_states_by_owner,
          ((fun kv => (kv.1, WordState.from_dict kv.2)) ∘
            (fun kv => (kv.1, kv.2.to_dict))) kv = id kv := by
        intro kv hkv
        simp only [Function.comp_apply, id_eq]
        rw [wordState_from_to kv.2 (hlow kv hkv)]
      rw [List.map_congr_left this, List.map_id]
    have hlook0 : alistLookup (VersusGame.to_dict g).word_states_by_owner p0.id =
        some ws0.to_dict := by
      unfold VersusGame.to_dict
      simp only []
      rw [alistLookup_map_val, hws0]
      rfl
    have hlook1 : alistLookup (VersusGame.to_dict g).word_states_by_owner p1.id =
        some ws1.to_dict := by
      unfold VersusGame.to_dict
      simp only []
      rw [alistLookup_map_val, hws1]
      rfl
    unfold VersusGame.from_dict
    rw [hplayers, hp]
    rw [if_neg (by simp)]
    simp only [List.get?_cons_zero, List.get?_cons_succ]
    rw [hlook0, hlook1]
    simp only []
    rw [Option.some.injEq]
    rw [show (VersusGame.to_dict g).id = g.id from rfl,
      show (VersusGame.to_dict g).current_player_index = g.current_player_index
        from rfl,
      show (VersusGame.to_dict g).finished = g.finished from rfl,
      show (VersusGame.to_dict g).winner_id = g.winner_id from rfl,
      show (VersusGame.to_dict g).turn_started_at = g.turn_started_at from rfl,
      hwords, ← hp]

def aiCarl : PlayerRec := mkAIPlayer "m" "Carl" 80

/-- A concrete human-vs-AI versus position for the C5 witness. -/
def wGameC5 : VersusGame :=
  { id := "v5"
    players := [pAlice, aiCarl]
    word_states_by_owner :=
      [("a", ⟨['c', 'a', 't'], {'a'}⟩), ("m", ⟨['d', 'o', 'g'], ∅⟩)]
    current_player_index := 1
    finished := false
    winner_id := none
    turn_started_at := 3 }

/-- Witness for C5: a concrete solo game after one guess, and a
concrete human-vs-AI versus game. -/
theorem serialization_round_trip_witness :
    SinglePlayerGame.from_dict
        ((create_solo "s5" pAlice ['c', 'a', 't'] 6).guess ['a']).to_dict =
      ((create_solo "s5" pAlice ['c', 'a', 't'] 6).guess ['a']) ∧
    VersusGame.from_dict wGameC5.to_dict = some wGameC5 :=
  ⟨by
    have h := serialization_round_trip.1
      ((create_solo "s5" pAlice ['c', 'a', 't'] 6).guess ['a']) (by decide)
    rw [h]
    rfl,
   serialization_round_trip.2 wGameC5 pAlice aiCarl
     ⟨['c', 'a', 't'], {'a'}⟩ ⟨['d', 'o', 'g'], ∅⟩ rfl (by decide) (by decide)
     (by decide)
     (by
       intro p hp1 n hk
       simp only [wGameC5, List.mem_cons, List.mem_singleton] at hp1
       rcases hp1 with rfl | rfl | hfalse
       · simp [pAlice] at hk
       · have : (80 : ℕ) = n := by
           simpa [aiCarl, mkAIPlayer, clampIntelligence] using hk
         omega
       · simp at hfalse)⟩

end Hangman
